import Mathlib

/-!
Verification of the UndercoverNet DNS / padding handlers.

The Python sources (`dns_handler.py`, `padding_handler.py`) are embedded
shallowly: byte buffers become `List Nat` (each entry one byte value),
mutable handler state becomes explicit record passing, network and clock
effects become explicit environment parameters, and exception paths become
`Option` / explicit fallback values, mirroring the `try/except` blocks of
the source.
-/

namespace UndercoverNet

/-! ## DNS query parsing (`DNSHandler._parse_dns_query`) -/

/-- Outcome of the name-walking loop of `_parse_dns_query` (the
`while offset < len(data)` loop): either an early `return None` because a
label length byte exceeds 63, or because a label would read past the end of
the buffer, or the loop terminated (via the zero-length label `break` or by
running off the end) with the collected labels and the final offset. -/
inductive NameScan where
  | oversize : NameScan
  | overrun : NameScan
  | done : List (List Nat) → Nat → NameScan
  deriving DecidableEq, Repr

/-- One step of the label-walking loop per unit of fuel.  The loop in the
source advances `offset` by at least two bytes per iteration, so any fuel
of at least `data.length` is enough to reach the loop exit; the fuel-zero
fallback is therefore unreachable from `scanName` below. -/
def scanNameAux (data : List Nat) : Nat → Nat → List (List Nat) → NameScan
  | 0, offset, acc => .done acc offset
  | fuel + 1, offset, acc =>
    if offset < data.length then
      let len := data.getD offset 0
      if len = 0 then .done acc (offset + 1)
      else if 63 < len then .oversize
      else if data.length < offset + 1 + len then .overrun
      else scanNameAux data fuel (offset + 1 + len)
        (acc ++ [(data.drop (offset + 1)).take len])
    else .done acc offset

/-- The name-walking loop of `_parse_dns_query`, starting right after the
12-byte DNS header. -/
def scanName (data : List Nat) : NameScan := scanNameAux data data.length 12 []

/-- Validity of a byte sequence as strict UTF-8, modelling the fact that
`bytes.decode('utf-8')` in the source raises (and the surrounding
`try/except` turns the raise into `None`) exactly on invalid input. -/
def utf8Valid : List Nat → Bool
  | [] => true
  | b :: rest =>
    if b < 128 then utf8Valid rest
    else if b < 194 then false
    else if b < 224 then
      match rest with
      | b2 :: r => decide (128 ≤ b2 ∧ b2 < 192) && utf8Valid r
      | [] => false
    else if b < 240 then
      match rest with
      | b2 :: b3 :: r =>
        (decide ((if b = 224 then 160 ≤ b2 ∧ b2 < 192
                  else if b = 237 then 128 ≤ b2 ∧ b2 < 160
                  else 128 ≤ b2 ∧ b2 < 192) ∧ 128 ≤ b3 ∧ b3 < 192))
          && utf8Valid r
      | _ => false
    else if b < 245 then
      match rest with
      | b2 :: b3 :: b4 :: r =>
        (decide ((if b = 240 then 144 ≤ b2 ∧ b2 < 192
                  else if b = 244 then 128 ≤ b2 ∧ b2 < 144
                  else 128 ≤ b2 ∧ b2 < 192) ∧
                 (128 ≤ b3 ∧ b3 < 192) ∧ 128 ≤ b4 ∧ b4 < 192))
          && utf8Valid r
      | _ => false
    else false

/-- The `'.'.join(domain_parts)` of the source: labels joined by the byte
of the dot character (46).  The domain string is represented by its UTF-8
byte sequence. -/
def joinDot (parts : List (List Nat)) : List Nat :=
  (parts.intersperse [46]).flatten

/-- ASCII lowercasing of a byte sequence, the byte-level meaning of
Python `str.lower()` on ASCII text.  The source never applies it; it is
needed to state (and refute) the spec sentence that claims the parsed
domain is lower-cased. -/
def lowerAscii (bs : List Nat) : List Nat :=
  bs.map (fun b => if 65 ≤ b ∧ b ≤ 90 then b + 32 else b)

/-- The DNS wire encoding of a label sequence: each label preceded by its
length byte.  Used on the specification side to describe well-formed
queries. -/
def encodeLabels (parts : List (List Nat)) : List Nat :=
  (parts.map (fun l => l.length :: l)).flatten

/-- The code of `_parse_dns_query` after the name-walking loop: give up if
the walk hit an early `return None`; otherwise fail on a decode error, an
empty name or a missing type field, and else return the joined labels and
the big-endian type. -/
def parse_after_scan (data : List Nat) : NameScan → Option (List Nat × Nat)
  | .oversize => none
  | .overrun => none
  | .done parts offset =>
    if parts.all (fun l => utf8Valid l) then
      if parts = [] then none
      else if offset + 2 ≤ data.length then
        some (joinDot parts, 256 * data.getD offset 0 + data.getD (offset + 1) 0)
      else none
    else none

/-- Embedding of `DNSHandler._parse_dns_query`: returns the domain (as its
UTF-8 byte sequence) and the big-endian 16-bit query type, or `none` on
any failure path (short buffer, oversized label, truncated label, empty
name, truncated type field, or a label that fails UTF-8 decoding). -/
def parse_dns_query (data : List Nat) : Option (List Nat × Nat) :=
  if data.length < 12 then none
  else parse_after_scan data (scanName data)

/-! ## Resource record construction (`_build_a_record`, `_build_aaaa_record`) -/

/-- Splitting a character sequence on a separator, the semantics of the
Python `str.split(sep)` used to read address literals: the empty input
gives one empty group, and adjacent separators give empty groups. -/
def splitChars (sep : Char) : List Char → List (List Char)
  | [] => [[]]
  | c :: cs =>
    let rest := splitChars sep cs
    if c = sep then [] :: rest
    else
      match rest with
      | [] => [[c]]
      | g :: gs => (c :: g) :: gs

/-- Value of a decimal digit character, if any. -/
def digitVal (c : Char) : Option Nat :=
  if 48 ≤ c.toNat ∧ c.toNat ≤ 57 then some (c.toNat - 48) else none

/-- Decimal reading of a non-empty all-digit character sequence. -/
def decNat (cs : List Char) : Option Nat :=
  match cs with
  | [] => none
  | _ =>
    cs.foldlM (fun acc c => (digitVal c).map (fun d => 10 * acc + d)) 0

/-- Models the standard-library `socket.inet_aton` on plain decimal
dotted-quad literals: four non-empty decimal components, each at most 255,
yield the four address bytes; anything else fails (raises, in the source).
Historic non-decimal forms accepted by the C library are out of scope. -/
def inet_aton (s : String) : Option (List Nat) :=
  match (splitChars '.' s.data).mapM (fun part =>
    match decNat part with
    | some n => if n ≤ 255 then some n else none
    | none => none) with
  | some parts => if parts.length = 4 then some parts else none
  | none => none

/-- Value of a hexadecimal digit character, if any. -/
def hexDigit (c : Char) : Option Nat :=
  if 48 ≤ c.toNat ∧ c.toNat ≤ 57 then some (c.toNat - 48)
  else if 97 ≤ c.toNat ∧ c.toNat ≤ 102 then some (c.toNat - 87)
  else if 65 ≤ c.toNat ∧ c.toNat ≤ 70 then some (c.toNat - 55)
  else none

/-- Models the standard-library `socket.inet_pton(AF_INET6, ·)` on fully
expanded IPv6 literals: eight colon-separated groups of one to four hex
digits yield the sixteen address bytes; anything else fails.  Compressed
`::` forms are out of scope. -/
def inet_pton6 (s : String) : Option (List Nat) :=
  match (splitChars ':' s.data).mapM (fun g =>
    if g.length = 0 ∨ 4 < g.length then none
    else g.foldlM (fun acc c => (hexDigit c).map (fun d => 16 * acc + d)) 0) with
  | some gs =>
    if gs.length = 8 then some ((gs.map (fun g => [g / 256, g % 256])).flatten)
    else none
  | none => none

/-- Embedding of `DNSHandler._build_a_record`.  The answer data is an
`Option String` because `_resolve_via_doh` can hand over a missing JSON
`data` field (Python `None`); `inet_aton` then raises and the surrounding
`try/except` returns the empty byte string, exactly as for an unparseable
literal.  Layout: compression pointer 0xC00C, type 1, class 1, TTL 300,
RDLENGTH 4, then the four address bytes. -/
def build_a_record (ip : Option String) : List Nat :=
  match ip with
  | none => []
  | some s =>
    match inet_aton s with
    | none => []
    | some bs => [192, 12, 0, 1, 0, 1, 0, 0, 1, 44, 0, 4] ++ bs

/-- Embedding of `DNSHandler._build_aaaa_record`: compression pointer
0xC00C, type 28, class 1, TTL 300, RDLENGTH 16, then the sixteen address
bytes; the empty byte string on any encoding failure. -/
def build_aaaa_record (ip : Option String) : List Nat :=
  match ip with
  | none => []
  | some s =>
    match inet_pton6 s with
    | none => []
    | some bs => [192, 12, 0, 28, 0, 1, 0, 0, 1, 44, 0, 16] ++ bs

/-- The record built for one answer inside the loop of
`_build_dns_response`: an A record for query type 1, an AAAA record for
query type 28, and nothing for any other type. -/
def recOf (query_type : Nat) (ip : Option String) : List Nat :=
  if query_type = 1 then build_a_record ip
  else if query_type = 28 then build_aaaa_record ip
  else []

/-- Embedding of `DNSHandler._build_dns_response`.  The two leading guards
are the exception paths of the source: `response[2] |= 0x80` raises
`IndexError` on a buffer shorter than 3 bytes, and `struct.pack` with
format `>H` raises on an answer count of 65536 or more; in both cases the
`except` clause returns the original query unchanged.  Otherwise the QR
bit is OR-ed into byte 2, bytes 6-7 are overwritten with the big-endian
answer count (Python slice-assignment semantics: splice between `take 6`
and `drop 8`), and the encoded records are appended. -/
def build_dns_response (query : List Nat) (ips : List (Option String))
    (query_type : Nat) : List Nat :=
  if query.length < 3 then query
  else if 65536 ≤ ips.length then query
  else
    let r1 := query.set 2 (query.getD 2 0 ||| 128)
    let r2 := r1.take 6 ++ [ips.length / 256, ips.length % 256] ++ r1.drop 8
    r2 ++ (ips.map (recOf query_type)).flatten

/-! ## Resolution (`_resolve_via_doh`, `_resolve_via_tor`) -/

/-- One entry of the JSON answer array of a DoH reply, with the two fields
the source reads via `answer.get(...)`; either may be absent. -/
structure DohAnswer where
  rtype : Option Nat
  rdata : Option String
  deriving DecidableEq, Repr

/-- The observable part of the provider HTTP exchange: the status code and
the decoded JSON body.  `body = none` models a JSON decode failure (the
`response.json()` call raising); `body = some none` is a well-formed body
without an `Answer` key; `body = some (some answers)` carries the answer
array. -/
structure DohHttp where
  status : Nat
  body : Option (Option (List DohAnswer))
  deriving DecidableEq, Repr

/-- Embedding of `DNSHandler._resolve_via_doh`.  `session_active` is the
`if self.session:` guard; `net = none` models a raised network error
(caught by the `except` clause).  On a 200 reply the `data` fields of the
answers whose `type` equals the requested type are collected; a non-empty
collection is returned, anything else falls through to `return None`. -/
def resolve_via_doh (session_active : Bool) (query_type : Nat)
    (net : Option DohHttp) : Option (List (Option String)) :=
  if session_active then
    match net with
    | none => none
    | some resp =>
      if resp.status = 200 then
        match resp.body with
        | none => none
        | some answers? =>
          let ips :=
            match answers? with
            | some answers =>
              (answers.filter (fun a => a.rtype = some query_type)).map
                (fun a => a.rdata)
            | none => []
          if ips.isEmpty then none else some ips
      else none
  else none

/-- Embedding of `DNSHandler._resolve_via_tor`.  `net` is the outcome of
the single `getaddrinfo` call the source makes for the requested family:
`none` models a raised resolver error (caught by the `except` clause),
`some ips` the extracted address strings.  Query types other than 1 and
28 return `None` before any lookup. -/
def resolve_via_tor (query_type : Nat) (net : Option (List String)) :
    Option (List String) :=
  if query_type = 1 ∨ query_type = 28 then
    match net with
    | none => none
    | some ips => some ips
  else none

/-- Embedding of `DNSHandler._handle_dns_query`, returning the response
packet sent back to the client, or `none` when no packet is sent.  The
resolver environments stand for the network interactions of the chosen
mode.  A response is sent only when the resolver returns a truthy
(non-`None`, non-empty) list, matching `if response:` in the source. -/
def handle_dns_query (data : List Nat) (tor_mode : Bool)
    (doh_session : Bool) (doh_net : Option DohHttp)
    (tor_net : Option (List String)) : Option (List Nat) :=
  match parse_dns_query data with
  | none => none
  | some (_, query_type) =>
    let response : Option (List (Option String)) :=
      if tor_mode then
        (resolve_via_tor query_type tor_net).map (fun l => l.map some)
      else resolve_via_doh doh_session query_type doh_net
    match response with
    | none => none
    | some ips =>
      if ips.isEmpty then none
      else some (build_dns_response data ips query_type)

/-! ## Start-up (`DNSHandler.start_doh`) -/

/-- The fixed DoH provider registry `self.doh_servers` from
`DNSHandler.__init__`: name, query URL and bootstrap IP. -/
def doh_servers : List (String × String × String) :=
  [("cloudflare", "https://cloudflare-dns.com/dns-query", "1.1.1.1"),
   ("google", "https://dns.google/dns-query", "8.8.8.8"),
   ("quad9", "https://dns.quad9.net/dns-query", "9.9.9.9"),
   ("adguard", "https://dns.adguard.com/dns-query", "94.140.14.14")]

/-- The handler state touched by `start_doh`: the selected provider, the
HTTP session, the local DNS server socket, and the running flag. -/
structure DNSState where
  current_provider : String
  session_active : Bool
  socket_bound : Bool
  running : Bool
  deriving DecidableEq, Repr

/-- Embedding of `DNSHandler.start_doh`.  An unknown provider name raises
`ValueError` before any assignment, so the state is returned untouched
with the error.  Otherwise the provider is stored and the session created;
the environment flags say whether binding the local server socket and
configuring the system DNS succeed (both re-raise on failure, leaving the
mutations made so far in place). -/
def start_doh (st : DNSState) (provider : String)
    (bind_ok : Bool) (config_ok : Bool) : DNSState × Option String :=
  if provider ∈ doh_servers.map (fun e => e.1) then
    let st1 := { st with current_provider := provider, session_active := true }
    if bind_ok then
      let st2 := { st1 with socket_bound := true }
      if config_ok then ({ st2 with running := true }, none)
      else (st2, some "Failed to configure system DNS")
    else (st1, some "Failed to start local DNS server")
  else (st, some ("Unknown DoH provider: " ++ provider))

/-! ## Packet padding (`PaddingHandler`) -/

/-- The default `self.target_packet_size` from `PaddingHandler.__init__`. -/
def target_packet_size_default : Nat := 512

/-- The `self.stats` counters of `PaddingHandler`. -/
structure PadStats where
  packets_padded : Nat
  packets_delayed : Nat
  dummy_packets_sent : Nat
  bytes_added : Nat
  deriving DecidableEq, Repr

/-- Embedding of `PaddingHandler._generate_padding`.  The calls to
`random.randint(lo, hi)` are abstracted by the oracle `rand`, applied to
the loop index and the two bounds; whatever the oracle answers, exactly
one byte is appended per index. -/
def generate_padding (size : Nat) (rand : Nat → Nat → Nat → Nat) : List Nat :=
  (List.range size).map (fun i =>
    if i % 8 = 0 then 0
    else if i % 8 = 1 then 32
    else if i % 8 = 2 then rand i 65 90
    else if i % 8 = 3 then rand i 97 122
    else if i % 8 = 4 then rand i 48 57
    else rand i 1 255)

/-- Embedding of `PaddingHandler._process_packet`: returns `none` (packet
used unmodified) when the payload already reaches the target size, and
otherwise the payload extended by exactly the shortfall, with the
`packets_padded` and `bytes_added` counters updated. -/
def process_packet (target : Nat) (st : PadStats) (packet_data : List Nat)
    (rand : Nat → Nat → Nat → Nat) : Option (List Nat) × PadStats :=
  if target ≤ packet_data.length then (none, st)
  else
    let padding_needed := target - packet_data.length
    (some (packet_data ++ generate_padding padding_needed rand),
     { st with
        packets_padded := st.packets_padded + 1,
        bytes_added := st.bytes_added + padding_needed })

/-! ## Burst detection (`BurstDetector`) -/

/-- The `BurstDetector` state.  Timestamps are integers: the synthetic
clock of the specification.  Defaults from `__init__`: window 10,
threshold 5, empty history. -/
structure BurstDetector where
  window_size : ℤ
  threshold : Nat
  packet_times : List ℤ
  deriving DecidableEq, Repr

/-- Embedding of `BurstDetector.detect_burst`, with the `time.time()`
reading passed in as `current_time`: the current time is appended, entries
at or before `current_time - window_size` are purged, and the result is
whether the remaining count exceeds the threshold. -/
def detect_burst (bd : BurstDetector) (current_time : ℤ) :
    Bool × BurstDetector :=
  let times :=
    (bd.packet_times ++ [current_time]).filter
      (fun t => decide (current_time - bd.window_size < t))
  (decide (bd.threshold < times.length), { bd with packet_times := times })

/-- Feeding a whole timestamp sequence to a `BurstDetector`, returning the
last `detect_burst` result (`false` for the empty sequence) and the final
state. -/
def runDetector (bd : BurstDetector) (ts : List ℤ) : Bool × BurstDetector :=
  ts.foldl (fun acc t => detect_burst acc.2 t) (false, bd)

/-! ## Basic facts about the name-walking loop -/

theorem drop_cons_length {data : List Nat} {off : Nat} {x : Nat}
    {xs : List Nat} (h : data.drop off = x :: xs) :
    data.length = off + 1 + xs.length := by
  have hlen := congrArg List.length h
  simp only [List.length_drop, List.length_cons] at hlen
  have := List.length_drop off data ▸ hlen
  omega

theorem getD_of_drop {data : List Nat} {off : Nat} {r : List Nat}
    (h : data.drop off = r) (j : Nat) :
    data.getD (off + j) 0 = r.getD j 0 := by
  rw [List.getD_eq_getElem?_getD, List.getD_eq_getElem?_getD, ← h,
    List.getElem?_drop]

theorem getD_of_drop_cons {data : List Nat} {off : Nat} {x : Nat}
    {xs : List Nat} (h : data.drop off = x :: xs) :
    data.getD off 0 = x := by
  have := getD_of_drop h 0
  simpa using this

theorem drop_succ_of_drop_cons {data : List Nat} {off : Nat} {x : Nat}
    {xs : List Nat} (h : data.drop off = x :: xs) :
    data.drop (off + 1) = xs := by
  rw [← List.tail_drop, h]
  rfl

theorem scanNameAux_zero_label {data : List Nat} {off : Nat}
    {rest : List Nat} (h : data.drop off = 0 :: rest)
    (fuel : Nat) (acc : List (List Nat)) :
    scanNameAux data (fuel + 1) off acc = .done acc (off + 1) := by
  have hlen := drop_cons_length h
  have hget := getD_of_drop_cons h
  have hoff : off < data.length := by omega
  simp only [scanNameAux, hget]
  rw [if_pos hoff]
  simp

theorem scanNameAux_oversize {data : List Nat} {off : Nat} {c : Nat}
    {rest : List Nat} (h : data.drop off = c :: rest) (hc : 63 < c)
    (fuel : Nat) (acc : List (List Nat)) :
    scanNameAux data (fuel + 1) off acc = .oversize := by
  have hlen := drop_cons_length h
  have hget := getD_of_drop_cons h
  have hoff : off < data.length := by omega
  have hne : ¬ (c = 0) := by omega
  simp only [scanNameAux, hget]
  rw [if_pos hoff, if_neg hne, if_pos hc]

theorem scanNameAux_overrun {data : List Nat} {off : Nat} {n : Nat}
    {tail : List Nat} (h : data.drop off = n :: tail) (hn0 : n ≠ 0)
    (hn63 : n ≤ 63) (hshort : tail.length < n)
    (fuel : Nat) (acc : List (List Nat)) :
    scanNameAux data (fuel + 1) off acc = .overrun := by
  have hlen := drop_cons_length h
  have hget := getD_of_drop_cons h
  have hoff : off < data.length := by omega
  have h63 : ¬ (63 < n) := by omega
  have hov : data.length < off + 1 + n := by omega
  simp only [scanNameAux, hget]
  rw [if_pos hoff, if_neg hn0, if_neg h63, if_pos hov]

theorem scanNameAux_label {data : List Nat} {off : Nat} {l : List Nat}
    {rest : List Nat} (h : data.drop off = (l.length :: l) ++ rest)
    (hne : l ≠ []) (h63 : l.length ≤ 63)
    (fuel : Nat) (acc : List (List Nat)) :
    scanNameAux data (fuel + 1) off acc =
      scanNameAux data fuel (off + 1 + l.length) (acc ++ [l]) := by
  have hlen := drop_cons_length h
  have hget := getD_of_drop_cons h
  have hdrop : data.drop (off + 1) = l ++ rest := drop_succ_of_drop_cons h
  have hlabel : (data.drop (off + 1)).take l.length = l := by
    rw [hdrop]; exact List.take_left l rest
  have hlne : l.length ≠ 0 := fun h0 => hne (List.eq_nil_of_length_eq_zero h0)
  have hlen2 : data.length = off + 1 + (l.length + rest.length) := by
    have h' : data.length = off + 1 + (l ++ rest).length := hlen
    simpa using h'
  have hreach : ¬ data.length < off + 1 + l.length := by omega
  have hoff : off < data.length := by omega
  have h63 : ¬ (63 < l.length) := by omega
  simp only [scanNameAux, hget]
  rw [if_pos hoff, if_neg hlne, if_neg h63, if_neg hreach, hlabel]

theorem encodeLabels_nil : encodeLabels [] = [] := rfl

theorem encodeLabels_cons (l : List Nat) (L : List (List Nat)) :
    encodeLabels (l :: L) = l.length :: (l ++ encodeLabels L) := by
  simp [encodeLabels]

theorem length_le_encodeLabels_length (L : List (List Nat)) :
    L.length ≤ (encodeLabels L).length := by
  induction L with
  | nil => simp [encodeLabels_nil]
  | cons l L ih => simp [encodeLabels_cons]; omega

/-- Walking the loop across a well-formed run of encoded labels collects
exactly those labels and lands just past them, one unit of fuel per
label. -/
theorem scanNameAux_encode {data : List Nat} (L : List (List Nat))
    (hL : ∀ l ∈ L, l ≠ [] ∧ l.length ≤ 63) :
    ∀ (fuel off : Nat) (acc : List (List Nat)) (suffix : List Nat),
      data.drop off = encodeLabels L ++ suffix →
      scanNameAux data (L.length + fuel) off acc =
        scanNameAux data fuel (off + (encodeLabels L).length) (acc ++ L) := by
  induction L with
  | nil =>
    intro fuel off acc suffix h
    simp [encodeLabels_nil]
  | cons l L ih =>
    intro fuel off acc suffix h
    have hl := hL l (List.mem_cons_self l L)
    have hrest : ∀ x ∈ L, x ≠ [] ∧ x.length ≤ 63 := fun x hx =>
      hL x (List.mem_cons_of_mem l hx)
    rw [encodeLabels_cons] at h
    have h' : data.drop off = (l.length :: l) ++ (encodeLabels L ++ suffix) := by
      simpa using h
    have hstep := scanNameAux_label h' hl.1 hl.2 (L.length + fuel) acc
    have hdrop2 : data.drop (off + 1 + l.length) = encodeLabels L ++ suffix := by
      have h1 : data.drop (off + 1) = l ++ (encodeLabels L ++ suffix) := by
        simpa using drop_succ_of_drop_cons h'
      calc data.drop (off + 1 + l.length)
          = (data.drop (off + 1)).drop l.length := by
            rw [List.drop_drop]
        _ = encodeLabels L ++ suffix := by rw [h1, List.drop_left]
    have hrec := ih hrest fuel (off + 1 + l.length) (acc ++ [l]) suffix hdrop2
    have harith : off + 1 + l.length + (encodeLabels L).length =
        off + (encodeLabels (l :: L)).length := by
      rw [encodeLabels_cons]; simp; omega
    have hlist : (acc ++ [l]) ++ L = acc ++ l :: L := by simp
    calc scanNameAux data ((l :: L).length + fuel) off acc
        = scanNameAux data (L.length + fuel + 1) off acc := by
          congr 1; simp; omega
      _ = scanNameAux data (L.length + fuel) (off + 1 + l.length) (acc ++ [l]) := hstep
      _ = scanNameAux data fuel (off + 1 + l.length + (encodeLabels L).length)
            ((acc ++ [l]) ++ L) := hrec
      _ = scanNameAux data fuel (off + (encodeLabels (l :: L)).length)
            (acc ++ l :: L) := by rw [harith, hlist]

/-- On a buffer made of a 12-byte header, a well-formed encoded name and a
terminating zero byte, the name walk collects exactly the encoded labels. -/
theorem scanName_encode (hdr : List Nat) (L : List (List Nat))
    (rest : List Nat) (hhdr : hdr.length = 12)
    (hw : ∀ l ∈ L, l ≠ [] ∧ l.length ≤ 63) :
    scanName (hdr ++ (encodeLabels L ++ (0 :: rest))) =
      .done L (12 + (encodeLabels L).length + 1) := by
  set data := hdr ++ (encodeLabels L ++ (0 :: rest)) with hdata
  have hdrop : data.drop 12 = encodeLabels L ++ (0 :: rest) :=
    List.drop_left' hhdr
  have hEnc := length_le_encodeLabels_length L
  have hlen : data.length = 12 + ((encodeLabels L).length + (1 + rest.length)) := by
    simp only [hdata, List.length_append, List.length_cons]; omega
  have hfuel : data.length = L.length + ((data.length - L.length - 1) + 1) := by
    omega
  rw [scanName, hfuel,
    scanNameAux_encode L hw ((data.length - L.length - 1) + 1) 12 [] _ hdrop]
  have hdrop2 : data.drop (12 + (encodeLabels L).length) = 0 :: rest := by
    calc data.drop (12 + (encodeLabels L).length)
        = (data.drop 12).drop (encodeLabels L).length := by rw [List.drop_drop]
      _ = 0 :: rest := by rw [hdrop, List.drop_left]
  rw [scanNameAux_zero_label hdrop2]
  simp

/-- Characterization of a successful `_parse_dns_query`: the buffer is at
least 12 bytes, the name walk terminated with a non-empty label list, all
labels decode, there is room for the type field, and the returned values
are the joined labels and the big-endian type after the name. -/
theorem parse_success_char {data d : List Nat} {t : Nat}
    (h : parse_dns_query data = some (d, t)) :
    12 ≤ data.length ∧ ∃ parts off, scanName data = .done parts off ∧
      parts ≠ [] ∧ (∀ l ∈ parts, utf8Valid l = true) ∧
      off + 2 ≤ data.length ∧ d = joinDot parts ∧
      t = 256 * data.getD off 0 + data.getD (off + 1) 0 := by
  rw [parse_dns_query] at h
  split at h
  · exact absurd h (by simp)
  rename_i h12
  cases hscan : scanName data with
  | oversize => rw [hscan] at h; simp [parse_after_scan] at h
  | overrun => rw [hscan] at h; simp [parse_after_scan] at h
  | done parts off =>
    rw [hscan, parse_after_scan] at h
    split at h
    case isFalse => exact absurd h (by simp)
    rename_i hu
    split at h
    · exact absurd h (by simp)
    rename_i hne
    split at h
    case isFalse => exact absurd h (by simp)
    rename_i hroom
    have hpair := Option.some.inj h
    refine ⟨by omega, parts, off, rfl, hne, ?_, hroom,
      congrArg Prod.fst hpair.symm, congrArg Prod.snd hpair.symm⟩
    intro l hl
    exact List.all_eq_true.mp hu l hl

/-- On a well-formed single-question query buffer, `_parse_dns_query`
succeeds and returns the joined labels together with the big-endian type
read from the two bytes after the terminating zero. -/
theorem parse_dns_query_encode {hdr : List Nat} (L : List (List Nat))
    {rest : List Nat} (hhdr : hdr.length = 12) (hL : L ≠ [])
    (hw : ∀ l ∈ L, l ≠ [] ∧ l.length ≤ 63 ∧ utf8Valid l = true)
    (hrest : 2 ≤ rest.length) :
    parse_dns_query (hdr ++ (encodeLabels L ++ (0 :: rest))) =
      some (joinDot L, 256 * rest.getD 0 0 + rest.getD 1 0) := by
  set data := hdr ++ (encodeLabels L ++ (0 :: rest)) with hdata
  have hscan :=
    scanName_encode hdr L rest hhdr (fun l hl => ⟨(hw l hl).1, (hw l hl).2.1⟩)
  have hlen : data.length = 12 + ((encodeLabels L).length + (1 + rest.length)) := by
    simp only [hdata, List.length_append, List.length_cons]; omega
  have hdroprest : data.drop (12 + (encodeLabels L).length + 1) = rest := by
    have hdrop : data.drop 12 = encodeLabels L ++ (0 :: rest) :=
      List.drop_left' hhdr
    calc data.drop (12 + (encodeLabels L).length + 1)
        = ((data.drop 12).drop (encodeLabels L).length).drop 1 := by
          rw [List.drop_drop, List.drop_drop, Nat.add_assoc]
      _ = ((0 :: rest : List Nat).drop 1) := by
          rw [hdrop, List.drop_left]
      _ = rest := by simp
  have hg0 : data.getD (12 + (encodeLabels L).length + 1) 0 = rest.getD 0 0 := by
    have h0 := getD_of_drop hdroprest 0
    simpa using h0
  have hg1 : data.getD (12 + (encodeLabels L).length + 1 + 1) 0 = rest.getD 1 0 :=
    getD_of_drop hdroprest 1
  rw [parse_dns_query, if_neg (by omega), hscan, parse_after_scan,
    if_pos (List.all_eq_true.mpr (fun l hl => (hw l hl).2.2)),
    if_neg hL, if_pos (by omega), hg0, hg1]

/-- Walking a well-formed encoded name with an arbitrary non-empty
continuation: the walk reaches the continuation with at least one unit of
fuel to spare. -/
theorem scanName_encode_then (hdr : List Nat) (L : List (List Nat))
    (suffix : List Nat) (hhdr : hdr.length = 12)
    (hw : ∀ l ∈ L, l ≠ [] ∧ l.length ≤ 63) (hs : suffix ≠ []) :
    ∃ f, scanName (hdr ++ (encodeLabels L ++ suffix)) =
      scanNameAux (hdr ++ (encodeLabels L ++ suffix)) (f + 1)
        (12 + (encodeLabels L).length) L := by
  set data := hdr ++ (encodeLabels L ++ suffix) with hdata
  have hEnc := length_le_encodeLabels_length L
  have hsuf : 1 ≤ suffix.length := by
    cases suffix with
    | nil => exact absurd rfl hs
    | cons a s => simp
  have hlen : data.length = 12 + ((encodeLabels L).length + suffix.length) := by
    simp only [hdata, List.length_append]; omega
  have hdrop : data.drop 12 = encodeLabels L ++ suffix := List.drop_left' hhdr
  refine ⟨data.length - L.length - 1, ?_⟩
  have hfuel : data.length = L.length + ((data.length - L.length - 1) + 1) := by
    omega
  rw [scanName, hfuel,
    scanNameAux_encode L hw ((data.length - L.length - 1) + 1) 12 [] suffix hdrop]
  simp

/-- The drop of the combined buffer at the start of the continuation. -/
theorem drop_at_suffix (hdr : List Nat) (L : List (List Nat))
    (suffix : List Nat) (hhdr : hdr.length = 12) :
    (hdr ++ (encodeLabels L ++ suffix)).drop (12 + (encodeLabels L).length) =
      suffix := by
  have hdrop : (hdr ++ (encodeLabels L ++ suffix)).drop 12 =
      encodeLabels L ++ suffix := List.drop_left' hhdr
  calc (hdr ++ (encodeLabels L ++ suffix)).drop (12 + (encodeLabels L).length)
      = ((hdr ++ (encodeLabels L ++ suffix)).drop 12).drop
          (encodeLabels L).length := by rw [List.drop_drop]
    _ = suffix := by rw [hdrop, List.drop_left]

/-- A buffer shorter than 12 bytes is rejected. -/
theorem parse_short {data : List Nat} (h : data.length < 12) :
    parse_dns_query data = none := by
  rw [parse_dns_query, if_pos h]

/-- A label length byte above 63 encountered after a well-formed run of
labels makes `_parse_dns_query` fail. -/
theorem parse_oversize (hdr : List Nat) (L : List (List Nat)) (c : Nat)
    (rest : List Nat) (hhdr : hdr.length = 12)
    (hw : ∀ l ∈ L, l ≠ [] ∧ l.length ≤ 63) (hc : 63 < c) :
    parse_dns_query (hdr ++ (encodeLabels L ++ (c :: rest))) = none := by
  obtain ⟨f, hf⟩ := scanName_encode_then hdr L (c :: rest) hhdr hw (by simp)
  have hdropc := drop_at_suffix hdr L (c :: rest) hhdr
  have hlen : 12 ≤ (hdr ++ (encodeLabels L ++ (c :: rest))).length := by
    simp only [List.length_append]; omega
  rw [parse_dns_query, if_neg (by omega), hf,
    scanNameAux_oversize hdropc hc f L, parse_after_scan]

/-- A label that would read past the end of the buffer makes
`_parse_dns_query` fail. -/
theorem parse_overrun (hdr : List Nat) (L : List (List Nat)) (n : Nat)
    (tail : List Nat) (hhdr : hdr.length = 12)
    (hw : ∀ l ∈ L, l ≠ [] ∧ l.length ≤ 63) (hn0 : n ≠ 0) (hn63 : n ≤ 63)
    (hshort : tail.length < n) :
    parse_dns_query (hdr ++ (encodeLabels L ++ (n :: tail))) = none := by
  obtain ⟨f, hf⟩ := scanName_encode_then hdr L (n :: tail) hhdr hw (by simp)
  have hdropn := drop_at_suffix hdr L (n :: tail) hhdr
  have hlen : 12 ≤ (hdr ++ (encodeLabels L ++ (n :: tail))).length := by
    simp only [List.length_append]; omega
  rw [parse_dns_query, if_neg (by omega), hf,
    scanNameAux_overrun hdropn hn0 hn63 hshort f L, parse_after_scan]

/-- A name that starts directly with the terminating zero byte (no labels)
makes `_parse_dns_query` fail. -/
theorem parse_empty_name (hdr : List Nat) (rest : List Nat)
    (hhdr : hdr.length = 12) :
    parse_dns_query (hdr ++ (0 :: rest)) = none := by
  have h := scanName_encode hdr [] rest hhdr (by simp)
  have hlen : 12 ≤ (hdr ++ (0 :: rest)).length := by
    simp only [List.length_append]; omega
  have hform : hdr ++ (0 :: rest) = hdr ++ (encodeLabels [] ++ (0 :: rest)) := by
    rw [encodeLabels_nil]; simp
  rw [hform] at hlen
  rw [hform, parse_dns_query, if_neg (by omega), h, parse_after_scan,
    if_pos (by simp), if_pos rfl]

/-! ## Facts about `_build_dns_response` -/

theorem splice67_length {l : List Nat} (hl : 8 ≤ l.length) (a b : Nat) :
    (l.take 6 ++ [a, b] ++ l.drop 8).length = l.length := by
  simp only [List.length_append, List.length_take, List.length_drop,
    List.length_cons, List.length_nil]
  omega

theorem splice67_getD_lt {l : List Nat} {i : Nat} (h6 : i < 6)
    (hl : 8 ≤ l.length) (a b : Nat) :
    (l.take 6 ++ [a, b] ++ l.drop 8).getD i 0 = l.getD i 0 := by
  rw [List.getD_eq_getElem?_getD, List.getD_eq_getElem?_getD]
  congr 1
  rw [List.getElem?_append_left, List.getElem?_append_left,
    List.getElem?_take_of_lt h6]
  · simp only [List.length_take]; omega
  · simp only [List.length_append, List.length_take, List.length_cons,
      List.length_nil]
    omega

theorem splice67_getD6 {l : List Nat} (hl : 8 ≤ l.length) (a b : Nat) :
    (l.take 6 ++ [a, b] ++ l.drop 8).getD 6 0 = a := by
  have htl : (l.take 6).length = 6 := by simp only [List.length_take]; omega
  rw [List.getD_eq_getElem?_getD]
  rw [List.getElem?_append_left (by
    simp only [List.length_append, List.length_take, List.length_cons,
      List.length_nil]
    omega)]
  rw [List.getElem?_append_right (by omega), htl]
  simp

theorem splice67_getD7 {l : List Nat} (hl : 8 ≤ l.length) (a b : Nat) :
    (l.take 6 ++ [a, b] ++ l.drop 8).getD 7 0 = b := by
  have htl : (l.take 6).length = 6 := by simp only [List.length_take]; omega
  rw [List.getD_eq_getElem?_getD]
  rw [List.getElem?_append_left (by
    simp only [List.length_append, List.length_take, List.length_cons,
      List.length_nil]
    omega)]
  rw [List.getElem?_append_right (by omega), htl]
  simp

/-- With 65536 or more answers, `struct.pack` raises and the original
query is returned untouched (and likewise for a query too short for the
header write). -/
theorem build_dns_response_overflow {query : List Nat}
    {ips : List (Option String)} {query_type : Nat}
    (h : 65536 ≤ ips.length) :
    build_dns_response query ips query_type = query := by
  rw [build_dns_response]
  by_cases h3 : query.length < 3
  · rw [if_pos h3]
  · rw [if_neg h3, if_pos h]

/-- Header bytes of a normally built response: transaction ID preserved,
QR bit OR-ed into byte 2, answer count in bytes 6-7, and the record bytes
appended after the copied query. -/
theorem build_dns_response_header {query : List Nat}
    {ips : List (Option String)} {query_type : Nat}
    (h12 : 12 ≤ query.length) (hlt : ips.length < 65536) :
    (build_dns_response query ips query_type).getD 0 0 = query.getD 0 0 ∧
    (build_dns_response query ips query_type).getD 1 0 = query.getD 1 0 ∧
    (build_dns_response query ips query_type).getD 2 0 =
      (query.getD 2 0 ||| 128) ∧
    (build_dns_response query ips query_type).getD 6 0 = ips.length / 256 ∧
    (build_dns_response query ips query_type).getD 7 0 = ips.length % 256 ∧
    (build_dns_response query ips query_type).length =
      query.length + ((ips.map (recOf query_type)).flatten).length := by
  have hbuild : build_dns_response query ips query_type =
      ((query.set 2 (query.getD 2 0 ||| 128)).take 6 ++
        [ips.length / 256, ips.length % 256] ++
        (query.set 2 (query.getD 2 0 ||| 128)).drop 8) ++
        (ips.map (recOf query_type)).flatten := by
    rw [build_dns_response, if_neg (by omega), if_neg (by omega)]
  set r1 := query.set 2 (query.getD 2 0 ||| 128) with hr1
  have hr1len : r1.length = query.length := by
    rw [hr1, List.length_set]
  have h8 : 8 ≤ r1.length := by omega
  have hsplen : (r1.take 6 ++ [ips.length / 256, ips.length % 256] ++
      r1.drop 8).length = r1.length := splice67_length h8 _ _
  have hget : ∀ j, j < r1.length →
      (build_dns_response query ips query_type).getD j 0 =
      (r1.take 6 ++ [ips.length / 256, ips.length % 256] ++
        r1.drop 8).getD j 0 := by
    intro j hj
    rw [hbuild, List.getD_eq_getElem?_getD, List.getD_eq_getElem?_getD]
    congr 1
    exact List.getElem?_append_left (by omega)
  have hr1get : ∀ j, j ≠ 2 → r1.getD j 0 = query.getD j 0 := by
    intro j hj
    rw [hr1]
    simp only [List.getD_eq_getElem?_getD]
    rw [List.getElem?_set_ne (show (2 : Nat) ≠ j from fun h => hj h.symm)]
  have hr1get2 : r1.getD 2 0 = query.getD 2 0 ||| 128 := by
    rw [hr1, List.getD_eq_getElem?_getD,
      List.getElem?_set_self (by omega)]
    simp
  refine ⟨?_, ?_, ?_, ?_, ?_, ?_⟩
  · rw [hget 0 (by omega), splice67_getD_lt (by omega) h8, hr1get 0 (by omega)]
  · rw [hget 1 (by omega), splice67_getD_lt (by omega) h8, hr1get 1 (by omega)]
  · rw [hget 2 (by omega), splice67_getD_lt (by omega) h8, hr1get2]
  · rw [hget 6 (by omega), splice67_getD6 h8]
  · rw [hget 7 (by omega), splice67_getD7 h8]
  · rw [hbuild, List.length_append, hsplen, hr1len]

/-! ## Facts about `BurstDetector` -/

theorem detect_burst_state (bd : BurstDetector) (t : ℤ) :
    (detect_burst bd t).2 =
      { bd with packet_times :=
          ((bd.packet_times ++ [t]).filter
            (fun x => decide (t - bd.window_size < x))) } := rfl

theorem detect_burst_fst (bd : BurstDetector) (t : ℤ) :
    (detect_burst bd t).1 =
      decide (bd.threshold < (detect_burst bd t).2.packet_times.length) := rfl

theorem runDetector_cons (b : Bool) (bd : BurstDetector) (t : ℤ)
    (ts : List ℤ) :
    List.foldl (fun acc t => detect_burst acc.2 t) (b, bd) (t :: ts) =
      List.foldl (fun acc t => detect_burst acc.2 t)
        (detect_burst bd t) ts := rfl

theorem runDetector_preserves : ∀ (ts : List ℤ) (b : Bool)
    (bd : BurstDetector),
    (List.foldl (fun acc t => detect_burst acc.2 t) (b, bd) ts).2.window_size =
      bd.window_size ∧
    (List.foldl (fun acc t => detect_burst acc.2 t) (b, bd) ts).2.threshold =
      bd.threshold := by
  intro ts
  induction ts with
  | nil => intro b bd; exact ⟨rfl, rfl⟩
  | cons t ts ih =>
    intro b bd
    rw [runDetector_cons]
    exact ih _ _

theorem runDetector_last : ∀ (ts : List ℤ) (b : Bool) (bd : BurstDetector),
    ts ≠ [] →
    (List.foldl (fun acc t => detect_burst acc.2 t) (b, bd) ts).1 =
      decide (bd.threshold <
        (List.foldl (fun acc t => detect_burst acc.2 t)
          (b, bd) ts).2.packet_times.length) := by
  intro ts
  induction ts with
  | nil => intro b bd h; exact absurd rfl h
  | cons t ts ih =>
    intro b bd _
    rw [runDetector_cons]
    cases ts with
    | nil =>
      simp only [List.foldl_nil]
      rw [detect_burst_fst]
    | cons t2 ts2 =>
      rw [show (detect_burst bd t) =
        ((detect_burst bd t).1, (detect_burst bd t).2) from rfl]
      rw [ih (detect_burst bd t).1 (detect_burst bd t).2 (by simp)]
      have hth : (detect_burst bd t).2.threshold = bd.threshold := rfl
      rw [hth]

/-- If every timestamp in the history and the input is within the window
of the final input timestamp and the inputs are nondecreasing, no filter
step ever discards anything: the final history is history plus inputs. -/
theorem runDetector_keep_all : ∀ (ts : List ℤ) (b : Bool)
    (bd : BurstDetector) (tN : ℤ),
    List.Sorted (· ≤ ·) ts → ts.getLast? = some tN →
    (∀ x ∈ bd.packet_times ++ ts, tN - bd.window_size < x) →
    (List.foldl (fun acc t => detect_burst acc.2 t)
      (b, bd) ts).2.packet_times = bd.packet_times ++ ts := by
  intro ts
  induction ts with
  | nil => intro b bd tN _ hlast _; simp at hlast
  | cons t ts ih =>
    intro b bd tN hsort hlast hall
    have htmem : t ≤ tN := by
      rcases List.mem_cons.mp (List.mem_of_getLast?_eq_some hlast) with h | h
      · exact le_of_eq h.symm
      · exact (List.sorted_cons.mp hsort).1 tN h
    have hfilter : (bd.packet_times ++ [t]).filter
        (fun x => decide (t - bd.window_size < x)) = bd.packet_times ++ [t] := by
      apply List.filter_eq_self.mpr
      intro a ha
      have haq : tN - bd.window_size < a := by
        apply hall
        rcases List.mem_append.mp ha with h | h
        · exact List.mem_append.mpr (Or.inl h)
        · simp at h
          exact List.mem_append.mpr (Or.inr (by simp [h]))
      simp only [decide_eq_true_eq]
      have := sub_le_sub_right htmem bd.window_size
      linarith
    rw [runDetector_cons]
    cases ts with
    | nil =>
      simp only [List.foldl_nil, detect_burst_state]
      simp at hlast
      subst hlast
      simpa using hfilter
    | cons t2 ts2 =>
      have hbd1 : (detect_burst bd t).2 =
          { bd with packet_times := bd.packet_times ++ [t] } := by
        rw [detect_burst_state, hfilter]
      rw [show (detect_burst bd t) =
        ((detect_burst bd t).1, (detect_burst bd t).2) from rfl, hbd1]
      rw [ih (detect_burst bd t).1 _ tN (List.sorted_cons.mp hsort).2
        (by simpa using hlast) ?_]
      · simp
      · intro x hx
        apply hall
        rcases List.mem_append.mp hx with h | h
        · rcases List.mem_append.mp h with h2 | h2
          · exact List.mem_append.mpr (Or.inl h2)
          · simp at h2
            exact List.mem_append.mpr (Or.inr (by simp [h2]))
        · exact List.mem_append.mpr (Or.inr (by simp [h]))

/-- The detector history is always a sublist of the prior history followed
by the inputs. -/
theorem runDetector_sublist : ∀ (ts : List ℤ) (b : Bool)
    (bd : BurstDetector),
    List.Sublist
      (List.foldl (fun acc t => detect_burst acc.2 t)
        (b, bd) ts).2.packet_times
      (bd.packet_times ++ ts) := by
  intro ts
  induction ts with
  | nil => intro b bd; simp
  | cons t ts ih =>
    intro b bd
    rw [runDetector_cons]
    have h1 : List.Sublist (detect_burst bd t).2.packet_times
        (bd.packet_times ++ [t]) := by
      rw [detect_burst_state]
      exact List.filter_sublist _
    have step1 : List.Sublist
        (List.foldl (fun acc t => detect_burst acc.2 t)
          (detect_burst bd t) ts).2.packet_times
        ((detect_burst bd t).2.packet_times ++ ts) := by
      rw [show (detect_burst bd t) =
        ((detect_burst bd t).1, (detect_burst bd t).2) from rfl]
      exact ih _ _
    have step2 := step1.trans (h1.append_right ts)
    simpa using step2

/-- Every entry of the final history survived the final purge: it is more
recent than the last input minus the window. -/
theorem runDetector_recent : ∀ (ts : List ℤ) (b : Bool)
    (bd : BurstDetector) (tN : ℤ), ts.getLast? = some tN →
    ∀ x ∈ (List.foldl (fun acc t => detect_burst acc.2 t)
      (b, bd) ts).2.packet_times, tN - bd.window_size < x := by
  intro ts
  induction ts with
  | nil => intro b bd tN hlast; simp at hlast
  | cons t ts ih =>
    intro b bd tN hlast x hx
    rw [runDetector_cons] at hx
    cases ts with
    | nil =>
      simp only [List.foldl_nil, detect_burst_state] at hx
      simp at hlast
      subst hlast
      have := List.of_mem_filter hx
      simpa using this
    | cons t2 ts2 =>
      have hwin : (detect_burst bd t).2.window_size = bd.window_size := by
        rw [detect_burst_state]
      have := ih (detect_burst bd t).1 (detect_burst bd t).2 tN
        (by simpa using hlast) x
      rw [hwin] at this
      apply this
      rw [show (detect_burst bd t) =
        ((detect_burst bd t).1, (detect_burst bd t).2) from rfl] at hx
      exact hx

theorem length_filter_lt_of_mem_not {α : Type} {l : List α} {p : α → Bool}
    {a : α} (ha : a ∈ l) (hpa : p a = false) :
    (l.filter p).length < l.length := by
  induction l with
  | nil => cases ha
  | cons b l ih =>
    rcases List.mem_cons.mp ha with rfl | hmem
    · rw [List.filter_cons_of_neg (by simp [hpa])]
      exact Nat.lt_succ_of_le (List.length_filter_le p l)
    · by_cases hb : p b
      · rw [List.filter_cons_of_pos hb]
        simpa using ih hmem
      · rw [List.filter_cons_of_neg hb]
        exact Nat.lt_succ_of_le (Nat.le_of_lt (ih hmem))

/-! ## Claims -/

/-- C3: `_parse_dns_query` returns `None` for every buffer shorter than 12
bytes, for every buffer whose name contains a label length byte greater
than 63, for every buffer in which a label would read past the end of the
buffer, and for every buffer with no labels before the terminating zero
byte; and on success none of these conditions holds (the name walk ended
normally with a non-empty label list on a buffer of at least 12 bytes). -/
theorem C3_parse_failure_paths :
    (∀ data : List Nat, data.length < 12 → parse_dns_query data = none) ∧
    (∀ (hdr : List Nat) (L : List (List Nat)) (c : Nat) (rest : List Nat),
      hdr.length = 12 → (∀ l ∈ L, l ≠ [] ∧ l.length ≤ 63) → 63 < c →
      parse_dns_query (hdr ++ (encodeLabels L ++ (c :: rest))) = none) ∧
    (∀ (hdr : List Nat) (L : List (List Nat)) (n : Nat) (tail : List Nat),
      hdr.length = 12 → (∀ l ∈ L, l ≠ [] ∧ l.length ≤ 63) → n ≠ 0 →
      n ≤ 63 → tail.length < n →
      parse_dns_query (hdr ++ (encodeLabels L ++ (n :: tail))) = none) ∧
    (∀ (hdr rest : List Nat), hdr.length = 12 →
      parse_dns_query (hdr ++ (0 :: rest)) = none) ∧
    (∀ (data : List Nat) (r : List Nat × Nat),
      parse_dns_query data = some r →
      12 ≤ data.length ∧
        ∃ parts off, scanName data = .done parts off ∧ parts ≠ []) := by
  refine ⟨fun data h => parse_short h, parse_oversize, parse_overrun,
    parse_empty_name, ?_⟩
  intro data r h
  obtain ⟨h12, parts, off, hscan, hne, _⟩ := parse_success_char
    (show parse_dns_query data = some (r.1, r.2) from h)
  exact ⟨h12, parts, off, hscan, hne⟩

/-- Witness for C3: each failure path at a concrete buffer, and the
success characterization at a concrete accepted query. -/
theorem C3_witness :
    parse_dns_query [0, 0, 0] = none ∧
    parse_dns_query ([0, 0, 0, 0, 0, 0, 0, 0, 0, 0, 0, 0] ++
      (encodeLabels [[97]] ++ (64 :: []))) = none ∧
    parse_dns_query ([0, 0, 0, 0, 0, 0, 0, 0, 0, 0, 0, 0] ++
      (encodeLabels [[97]] ++ (5 :: [98]))) = none ∧
    parse_dns_query ([0, 0, 0, 0, 0, 0, 0, 0, 0, 0, 0, 0] ++
      (0 :: [0, 1])) = none ∧
    (12 ≤ ([0, 0, 0, 0, 0, 0, 0, 0, 0, 0, 0, 0, 1, 97, 0, 0, 1] :
        List Nat).length ∧
      ∃ parts off,
        scanName [0, 0, 0, 0, 0, 0, 0, 0, 0, 0, 0, 0, 1, 97, 0, 0, 1] =
          .done parts off ∧ parts ≠ []) := by
  refine ⟨C3_parse_failure_paths.1 [0, 0, 0] (by decide),
    C3_parse_failure_paths.2.1 _ [[97]] 64 [] (by decide) (by decide)
      (by decide),
    C3_parse_failure_paths.2.2.1 _ [[97]] 5 [98] (by decide) (by decide)
      (by decide) (by decide) (by decide),
    C3_parse_failure_paths.2.2.2.1 _ [0, 1] (by decide),
    C3_parse_failure_paths.2.2.2.2 _ ([97], 1) (by decide)⟩

/-- C2 counterexample: the claim says the returned domain is the
lower-cased dot-joined label sequence, but `_parse_dns_query` never
lower-cases.  On a query whose single label is the byte 65 (ASCII `A`)
the parser returns the domain `A` while the lower-cased join is `a`. -/
theorem C2_counterexample :
    scanName [0, 0, 0, 0, 0, 0, 0, 0, 0, 0, 0, 0, 1, 65, 0, 0, 1] =
      .done [[65]] 15 ∧
    parse_dns_query [0, 0, 0, 0, 0, 0, 0, 0, 0, 0, 0, 0, 1, 65, 0, 0, 1] =
      some ([65], 1) ∧
    lowerAscii (joinDot [[65]]) ≠ [65] := by
  refine ⟨by decide, by decide, by decide⟩

/-- C2 amended: on success the returned domain is the dot-joined label
sequence exactly as transmitted (no case folding), and the returned type
is the big-endian 16-bit value immediately after the terminating zero
byte; conversely every well-formed encoded query parses to exactly
these values. -/
theorem C2_parse_domain_and_type :
    (∀ (data d : List Nat) (t : Nat), parse_dns_query data = some (d, t) →
      ∃ parts off, scanName data = .done parts off ∧ parts ≠ [] ∧
        d = joinDot parts ∧ off + 2 ≤ data.length ∧
        t = 256 * data.getD off 0 + data.getD (off + 1) 0) ∧
    (∀ (hdr : List Nat) (L : List (List Nat)) (rest : List Nat),
      hdr.length = 12 → L ≠ [] →
      (∀ l ∈ L, l ≠ [] ∧ l.length ≤ 63 ∧ utf8Valid l = true) →
      2 ≤ rest.length →
      parse_dns_query (hdr ++ (encodeLabels L ++ (0 :: rest))) =
        some (joinDot L, 256 * rest.getD 0 0 + rest.getD 1 0)) := by
  constructor
  · intro data d t h
    obtain ⟨_, parts, off, hscan, hne, _, hroom, hd, ht⟩ :=
      parse_success_char h
    exact ⟨parts, off, hscan, hne, hd, hroom, ht⟩
  · intro hdr L rest hhdr hL hw hrest
    exact parse_dns_query_encode L hhdr hL hw hrest

/-- Witness for C2: both directions at a concrete query for the two-label
domain `ab.c` with type 28. -/
theorem C2_witness :
    (∃ parts off,
      scanName [0, 0, 0, 0, 0, 0, 0, 0, 0, 0, 0, 0, 2, 97, 98, 1, 99, 0, 0, 28]
        = .done parts off ∧ parts ≠ [] ∧
      ([97, 98, 46, 99] : List Nat) = joinDot parts ∧
      off + 2 ≤ ([0, 0, 0, 0, 0, 0, 0, 0, 0, 0, 0, 0, 2, 97, 98, 1, 99, 0, 0,
        28] : List Nat).length ∧
      28 = 256 * ([0, 0, 0, 0, 0, 0, 0, 0, 0, 0, 0, 0, 2, 97, 98, 1, 99, 0,
        0, 28] : List Nat).getD off 0 +
        ([0, 0, 0, 0, 0, 0, 0, 0, 0, 0, 0, 0, 2, 97, 98, 1, 99, 0, 0,
          28] : List Nat).getD (off + 1) 0) ∧
    parse_dns_query ([0, 0, 0, 0, 0, 0, 0, 0, 0, 0, 0, 0] ++
      (encodeLabels [[97, 98], [99]] ++ (0 :: [0, 28]))) =
      some (joinDot [[97, 98], [99]], 256 * 0 + 28) := by
  constructor
  · exact C2_parse_domain_and_type.1
      [0, 0, 0, 0, 0, 0, 0, 0, 0, 0, 0, 0, 2, 97, 98, 1, 99, 0, 0, 28]
      [97, 98, 46, 99] 28 (by decide)
  · have h := C2_parse_domain_and_type.2
      [0, 0, 0, 0, 0, 0, 0, 0, 0, 0, 0, 0] [[97, 98], [99]] [0, 28]
      (by decide) (by decide) (by decide) (by decide)
    simpa using h

/-- C1 counterexample: the claim quantifies over every non-empty answer
list, but with 65536 answers `struct.pack` raises in
`_build_dns_response` and the original query comes back unchanged: its QR
bit is still clear and its bytes 6-7 still read 0, not the answer count.
The query here is accepted by the parser with type 1. -/
theorem C1_counterexample :
    parse_dns_query [0, 0, 0, 0, 0, 0, 0, 0, 0, 0, 0, 0, 1, 97, 0, 0, 1] =
      some ([97], 1) ∧
    List.replicate 65536 (some "1.2.3.4") ≠ ([] : List (Option String)) ∧
    build_dns_response [0, 0, 0, 0, 0, 0, 0, 0, 0, 0, 0, 0, 1, 97, 0, 0, 1]
      (List.replicate 65536 (some "1.2.3.4")) 1 =
      [0, 0, 0, 0, 0, 0, 0, 0, 0, 0, 0, 0, 1, 97, 0, 0, 1] ∧
    (([0, 0, 0, 0, 0, 0, 0, 0, 0, 0, 0, 0, 1, 97, 0, 0, 1] :
      List Nat).getD 2 0).testBit 7 = false ∧
    256 * ([0, 0, 0, 0, 0, 0, 0, 0, 0, 0, 0, 0, 1, 97, 0, 0, 1] :
      List Nat).getD 6 0 +
      ([0, 0, 0, 0, 0, 0, 0, 0, 0, 0, 0, 0, 1, 97, 0, 0, 1] :
        List Nat).getD 7 0 ≠
      (List.replicate 65536 (some "1.2.3.4")).length := by
  refine ⟨by decide, ?_, ?_, by decide, ?_⟩
  · intro h
    have h2 := congrArg List.length h
    rw [List.length_replicate] at h2
    exact absurd h2 (by decide)
  · exact build_dns_response_overflow (by rw [List.length_replicate])
  · rw [List.length_replicate]
    decide

/-- C1 amended: for every query accepted by `_parse_dns_query` with type
1 or 28 and every non-empty answer list of fewer than 65536 entries, the
response keeps the transaction ID in bytes 0-1, has the QR bit set in
byte 2, and carries the answer-list length big-endian in bytes 6-7. -/
theorem C1_response_header :
    ∀ (query d : List Nat) (t : Nat) (ips : List (Option String)),
      parse_dns_query query = some (d, t) → (t = 1 ∨ t = 28) →
      ips ≠ [] → ips.length ≤ 65535 →
      (build_dns_response query ips t).getD 0 0 = query.getD 0 0 ∧
      (build_dns_response query ips t).getD 1 0 = query.getD 1 0 ∧
      ((build_dns_response query ips t).getD 2 0).testBit 7 = true ∧
      256 * (build_dns_response query ips t).getD 6 0 +
        (build_dns_response query ips t).getD 7 0 = ips.length := by
  intro query d t ips hparse _ _ hlen
  have h12 : 12 ≤ query.length := (parse_success_char hparse).1
  obtain ⟨h0, h1, h2, h6, h7, _⟩ :=
    build_dns_response_header h12 (show ips.length < 65536 by omega)
  refine ⟨h0, h1, ?_, ?_⟩
  · rw [h2, Nat.testBit_lor]
    have : (128 : Nat).testBit 7 = true := by decide
    rw [this, Bool.or_true]
  · rw [h6, h7, Nat.div_add_mod]

/-- Witness for C1: the concrete accepted type-1 query with one answer. -/
theorem C1_witness :
    (build_dns_response [0, 7, 1, 0, 0, 1, 0, 0, 0, 0, 0, 0, 1, 97, 0, 0, 1]
      [some "1.2.3.4"] 1).getD 0 0 =
      ([0, 7, 1, 0, 0, 1, 0, 0, 0, 0, 0, 0, 1, 97, 0, 0, 1] :
        List Nat).getD 0 0 ∧
    (build_dns_response [0, 7, 1, 0, 0, 1, 0, 0, 0, 0, 0, 0, 1, 97, 0, 0, 1]
      [some "1.2.3.4"] 1).getD 1 0 =
      ([0, 7, 1, 0, 0, 1, 0, 0, 0, 0, 0, 0, 1, 97, 0, 0, 1] :
        List Nat).getD 1 0 ∧
    ((build_dns_response [0, 7, 1, 0, 0, 1, 0, 0, 0, 0, 0, 0, 1, 97, 0, 0, 1]
      [some "1.2.3.4"] 1).getD 2 0).testBit 7 = true ∧
    256 * (build_dns_response
        [0, 7, 1, 0, 0, 1, 0, 0, 0, 0, 0, 0, 1, 97, 0, 0, 1]
        [some "1.2.3.4"] 1).getD 6 0 +
      (build_dns_response [0, 7, 1, 0, 0, 1, 0, 0, 0, 0, 0, 0, 1, 97, 0, 0, 1]
        [some "1.2.3.4"] 1).getD 7 0 = ([some "1.2.3.4"] :
          List (Option String)).length :=
  C1_response_header _ [97] 1 [some "1.2.3.4"] (by decide) (Or.inl rfl)
    (by decide) (by decide)

/-- C10 counterexample: the claim says the answer count always exceeds
the number of appended records when some answer is unencodable, but with
65536 unencodable answers the builder falls back to the original query:
the emitted count is 0 and 0 records are appended, so it does not
exceed. -/
theorem C10_counterexample :
    build_dns_response [0, 0, 0, 0, 0, 0, 0, 0, 0, 0, 0, 0, 1, 97, 0, 0, 1]
      (List.replicate 65536 (some "x")) 1 =
      [0, 0, 0, 0, 0, 0, 0, 0, 0, 0, 0, 0, 1, 97, 0, 0, 1] ∧
    (∃ ip ∈ (List.replicate 65536 (some "x") : List (Option String)),
      recOf 1 ip = []) ∧
    ¬ (256 * (build_dns_response
          [0, 0, 0, 0, 0, 0, 0, 0, 0, 0, 0, 0, 1, 97, 0, 0, 1]
          (List.replicate 65536 (some "x")) 1).getD 6 0 +
        (build_dns_response
          [0, 0, 0, 0, 0, 0, 0, 0, 0, 0, 0, 0, 1, 97, 0, 0, 1]
          (List.replicate 65536 (some "x")) 1).getD 7 0 >
      ((List.replicate 65536 (some "x") : List (Option String)).filter
        (fun ip => recOf 1 ip ≠ [])).length) := by
  have hov : build_dns_response
      [0, 0, 0, 0, 0, 0, 0, 0, 0, 0, 0, 0, 1, 97, 0, 0, 1]
      (List.replicate 65536 (some "x")) 1 =
      [0, 0, 0, 0, 0, 0, 0, 0, 0, 0, 0, 0, 1, 97, 0, 0, 1] :=
    build_dns_response_overflow (by rw [List.length_replicate])
  refine ⟨hov,
    ⟨some "x", List.mem_replicate.mpr ⟨by decide, rfl⟩, by decide⟩, ?_⟩
  rw [hov]
  have hfilter : ((List.replicate 65536 (some "x") :
      List (Option String)).filter (fun ip => recOf 1 ip ≠ [])).length = 0 := by
    rw [List.filter_replicate_of_neg (by decide)]
    rfl
  rw [hfilter]
  decide

/-- C10 amended: for a query of at least header size and fewer than 65536
answers, bytes 6-7 of the response always carry the full answer-list
length, the appended bytes are exactly the concatenated per-answer
records, and whenever some answer encodes to the empty record the number
of non-empty records appended is strictly below the emitted count. -/
theorem C10_answer_count :
    ∀ (query : List Nat) (ips : List (Option String)) (query_type : Nat),
      12 ≤ query.length → ips.length < 65536 →
      256 * (build_dns_response query ips query_type).getD 6 0 +
        (build_dns_response query ips query_type).getD 7 0 = ips.length ∧
      (build_dns_response query ips query_type).length =
        query.length + ((ips.map (recOf query_type)).flatten).length ∧
      ((∃ ip ∈ ips, recOf query_type ip = []) →
        (ips.filter (fun ip => recOf query_type ip ≠ [])).length <
          ips.length) := by
  intro query ips query_type h12 hlt
  obtain ⟨_, _, _, h6, h7, hlen⟩ := build_dns_response_header h12 hlt
  have hcount : 256 * (build_dns_response query ips query_type).getD 6 0 +
      (build_dns_response query ips query_type).getD 7 0 = ips.length := by
    rw [h6, h7, Nat.div_add_mod]
  refine ⟨hcount, hlen, ?_⟩
  rintro ⟨ip, hip, hrec⟩
  exact length_filter_lt_of_mem_not hip (by simp [hrec])

/-- Witness for C10: two answers, one unencodable, on a 17-byte query. -/
theorem C10_witness :
    256 * (build_dns_response
        [0, 0, 0, 0, 0, 0, 0, 0, 0, 0, 0, 0, 1, 97, 0, 0, 1]
        [some "1.2.3.4", some "x"] 1).getD 6 0 +
      (build_dns_response [0, 0, 0, 0, 0, 0, 0, 0, 0, 0, 0, 0, 1, 97, 0, 0, 1]
        [some "1.2.3.4", some "x"] 1).getD 7 0 =
      ([some "1.2.3.4", some "x"] : List (Option String)).length ∧
    (build_dns_response [0, 0, 0, 0, 0, 0, 0, 0, 0, 0, 0, 0, 1, 97, 0, 0, 1]
      [some "1.2.3.4", some "x"] 1).length =
      ([0, 0, 0, 0, 0, 0, 0, 0, 0, 0, 0, 0, 1, 97, 0, 0, 1] :
        List Nat).length +
      ((([some "1.2.3.4", some "x"] : List (Option String)).map
        (recOf 1)).flatten).length ∧
    ((∃ ip ∈ ([some "1.2.3.4", some "x"] : List (Option String)),
        recOf 1 ip = []) →
      (([some "1.2.3.4", some "x"] : List (Option String)).filter
        (fun ip => recOf 1 ip ≠ [])).length <
        ([some "1.2.3.4", some "x"] : List (Option String)).length) :=
  C10_answer_count [0, 0, 0, 0, 0, 0, 0, 0, 0, 0, 0, 0, 1, 97, 0, 0, 1]
    [some "1.2.3.4", some "x"] 1 (by decide) (by decide)

/-- C4 counterexample: the claim says no response is sent for types other
than 1 and 28 in both modes, but the DoH path never checks the query
type: a TXT (type 16) query whose provider reply carries a matching
answer is answered with a packet. -/
theorem C4_counterexample :
    parse_dns_query [0, 0, 0, 0, 0, 0, 0, 0, 0, 0, 0, 0, 1, 97, 0, 0, 16] =
      some ([97], 16) ∧
    handle_dns_query [0, 0, 0, 0, 0, 0, 0, 0, 0, 0, 0, 0, 1, 97, 0, 0, 16]
      false true
      (some ⟨200, some (some [⟨some 16, some "hello"⟩])⟩) none ≠ none := by
  exact ⟨by decide, by decide⟩

/-- C4 amended: in delegated (Tor) resolution mode a parsed query of type
other than 1 and 28 is never answered; in DoH mode the type restriction
is not enforced (see the counterexample). -/
theorem C4_no_response_tor_mode :
    ∀ (data : List Nat) (doh_session : Bool) (doh_net : Option DohHttp)
      (tor_net : Option (List String)) (d : List Nat) (t : Nat),
      parse_dns_query data = some (d, t) → t ≠ 1 → t ≠ 28 →
      handle_dns_query data true doh_session doh_net tor_net = none := by
  intro data doh_session doh_net tor_net d t hparse h1 h28
  rw [handle_dns_query, hparse]
  have htor : resolve_via_tor t tor_net = none := by
    simp only [resolve_via_tor]
    rw [if_neg]
    rintro (h | h)
    · exact h1 h
    · exact h28 h
  simp [htor]

/-- Witness for C4: a parsed type-16 query in Tor mode gets no packet. -/
theorem C4_witness :
    handle_dns_query [0, 0, 0, 0, 0, 0, 0, 0, 0, 0, 0, 0, 1, 97, 0, 0, 16]
      true true (some ⟨200, some (some [⟨some 16, some "hello"⟩])⟩)
      (some ["1.2.3.4"]) = none :=
  C4_no_response_tor_mode _ true _ _ [97] 16 (by decide) (by decide)
    (by decide)

/-- C5 counterexample: the claim says that with a 200 reply and no
matching entries the result is the empty sequence, distinct from `None`;
the code instead returns `None` (the `if ips:` guard is falsy for an
empty list), so no-result and error are not distinguished. -/
theorem C5_counterexample :
    resolve_via_doh true 1 (some ⟨200, some (some [⟨some 5, some "x"⟩])⟩) =
      none ∧
    (none : Option (List (Option String))) ≠ some [] := by
  exact ⟨by decide, by decide⟩

/-- C5 amended: on a 200 reply with a parsed body, the resolver collects
the `data` fields of exactly the entries whose `type` matches; it returns
that collection when non-empty and `None` (not the empty sequence) when
no entry matches. -/
theorem C5_doh_filtering :
    ∀ (query_type : Nat) (answers : List DohAnswer),
      resolve_via_doh true query_type (some ⟨200, some (some answers)⟩) =
        (if ((answers.filter (fun a => a.rtype = some query_type)).map
            (fun a => a.rdata)).isEmpty then none
         else some ((answers.filter (fun a => a.rtype = some query_type)).map
            (fun a => a.rdata))) := by
  intro query_type answers
  rfl

/-- C6: both resolvers turn every failure into `None`: a raised network
error, a non-200 status or a JSON decode failure for the DoH resolver,
and a raised resolver error for the Tor path. -/
theorem C6_resolve_failure_returns_none :
    (∀ (session_active : Bool) (query_type : Nat),
      resolve_via_doh session_active query_type none = none) ∧
    (∀ (query_type : Nat) (resp : DohHttp), resp.status ≠ 200 →
      resolve_via_doh true query_type (some resp) = none) ∧
    (∀ (query_type st : Nat),
      resolve_via_doh true query_type (some ⟨st, none⟩) = none) ∧
    (∀ query_type : Nat, resolve_via_tor query_type none = none) := by
  refine ⟨?_, ?_, ?_, ?_⟩
  · intro sa qt
    cases sa <;> rfl
  · intro qt resp hst
    obtain ⟨st, body⟩ := resp
    have hst2 : st ≠ 200 := hst
    simp only [resolve_via_doh]
    simp [hst2]
  · intro qt st
    simp only [resolve_via_doh]
    by_cases hst : st = 200
    · subst hst; simp
    · simp [hst]
  · intro qt
    simp only [resolve_via_tor]
    split <;> rfl

/-- Witness for C6: a 404 reply, a missing session, a decode failure and
a raised Tor lookup all yield `None`. -/
theorem C6_witness :
    resolve_via_doh true 1 (some ⟨404, some (some [⟨some 1, some "x"⟩])⟩) =
      none ∧
    resolve_via_doh false 1 none = none ∧
    resolve_via_doh true 1 (some ⟨200, none⟩) = none ∧
    resolve_via_tor 1 none = none :=
  ⟨C6_resolve_failure_returns_none.2.1 1 _ (by decide),
    C6_resolve_failure_returns_none.1 false 1,
    C6_resolve_failure_returns_none.2.2.1 1 200,
    C6_resolve_failure_returns_none.2.2.2 1⟩

/-- C9: starting DoH with a provider name outside the fixed registry
returns the error without touching any handler state: provider, session,
socket and running flag keep their prior values. -/
theorem C9_unknown_provider_fails_fast :
    ∀ (st : DNSState) (provider : String) (bind_ok config_ok : Bool),
      (∀ e ∈ doh_servers, e.1 ≠ provider) →
      start_doh st provider bind_ok config_ok =
        (st, some ("Unknown DoH provider: " ++ provider)) := by
  intro st provider bind_ok config_ok h
  rw [start_doh, if_neg]
  intro hmem
  obtain ⟨e, he, heq⟩ := List.mem_map.mp hmem
  exact h e he heq

/-- Witness for C9: an unregistered provider name. -/
theorem C9_witness :
    start_doh ⟨"cloudflare", false, false, false⟩ "dnscrypt" true true =
      (⟨"cloudflare", false, false, false⟩,
        some ("Unknown DoH provider: " ++ "dnscrypt")) :=
  C9_unknown_provider_fails_fast ⟨"cloudflare", false, false, false⟩
    "dnscrypt" true true (by decide)

/-- C7: a payload already at or above the target size (default 512) is
left unmodified with all counters untouched; a shorter payload is
extended to exactly the target size, `bytes_added` grows by exactly the
shortfall, and `packets_padded` grows by one. -/
theorem C7_padding_behavior :
    target_packet_size_default = 512 ∧
    ∀ (target : Nat) (st : PadStats) (packet_data : List Nat)
      (rand : Nat → Nat → Nat → Nat),
      (target ≤ packet_data.length →
        process_packet target st packet_data rand = (none, st)) ∧
      (packet_data.length < target →
        ∃ out, process_packet target st packet_data rand =
          (some out,
            { st with
                packets_padded := st.packets_padded + 1,
                bytes_added :=
                  st.bytes_added + (target - packet_data.length) }) ∧
          out.length = target) := by
  refine ⟨rfl, ?_⟩
  intro target st packet_data rand
  constructor
  · intro h
    rw [process_packet, if_pos h]
  · intro h
    refine ⟨packet_data ++ generate_padding (target - packet_data.length) rand,
      ?_, ?_⟩
    · rw [process_packet, if_neg (by omega)]
    · have hpad : (generate_padding (target - packet_data.length) rand).length =
          target - packet_data.length := by
        rw [generate_padding, List.length_map, List.length_range]
      rw [List.length_append, hpad]
      omega

/-- Witness for C7: a 600-byte payload is untouched at the default target
size; a 3-byte payload is padded to a 512-byte packet. -/
theorem C7_witness :
    process_packet target_packet_size_default ⟨1, 2, 3, 4⟩
      (List.replicate 600 7) (fun _ lo _ => lo) =
      (none, ⟨1, 2, 3, 4⟩) ∧
    ∃ out, process_packet target_packet_size_default ⟨1, 2, 3, 4⟩ [9, 9, 9]
        (fun _ lo _ => lo) =
        (some out, ⟨2, 2, 3, 4 + (target_packet_size_default - 3)⟩) ∧
      out.length = target_packet_size_default := by
  constructor
  · exact (C7_padding_behavior.2 target_packet_size_default ⟨1, 2, 3, 4⟩
      (List.replicate 600 7) (fun _ lo _ => lo)).1
      (by rw [List.length_replicate]; decide)
  · exact (C7_padding_behavior.2 target_packet_size_default ⟨1, 2, 3, 4⟩
      [9, 9, 9] (fun _ lo _ => lo)).2 (by decide)

/-- C8: each `detect_burst` call appends the current timestamp, purges
entries older than the trailing window, and reports whether the remaining
count exceeds the threshold; consequently, more than `threshold`
nondecreasing timestamps spanning strictly less than `window` yield
`true`, while `threshold + 1` timestamps whose span reaches the window
yield `false`.  The embedding is a pure function of the timestamp
sequence, so the result is deterministic. -/
theorem C8_burst_detector :
    (∀ (bd : BurstDetector) (t : ℤ),
      detect_burst bd t =
        (decide (bd.threshold <
          ((bd.packet_times ++ [t]).filter
            (fun x => decide (t - bd.window_size < x))).length),
         { bd with packet_times :=
            ((bd.packet_times ++ [t]).filter
              (fun x => decide (t - bd.window_size < x))) })) ∧
    (∀ (w : ℤ) (thr : Nat) (ts : List ℤ) (t1 tN : ℤ),
      List.Sorted (· ≤ ·) ts → ts.head? = some t1 → ts.getLast? = some tN →
      tN - t1 < w → thr < ts.length →
      (runDetector ⟨w, thr, []⟩ ts).1 = true) ∧
    (∀ (w : ℤ) (thr : Nat) (ts : List ℤ) (t1 tN : ℤ),
      List.Sorted (· ≤ ·) ts → ts.head? = some t1 → ts.getLast? = some tN →
      t1 + w ≤ tN → ts.length = thr + 1 →
      (runDetector ⟨w, thr, []⟩ ts).1 = false) := by
  refine ⟨fun bd t => rfl, ?_, ?_⟩
  · intro w thr ts t1 tN hsort hhead hlast hspan hcount
    obtain ⟨ts', rfl⟩ := List.head?_eq_some_iff.mp hhead
    have hall : ∀ x ∈ ([] : List ℤ) ++ (t1 :: ts'), tN - w < x := by
      intro x hx
      simp only [List.nil_append] at hx
      have ht1x : t1 ≤ x := by
        rcases List.mem_cons.mp hx with rfl | hmem
        · exact le_refl x
        · exact (List.sorted_cons.mp hsort).1 x hmem
      linarith
    have hkeep := runDetector_keep_all (t1 :: ts') false ⟨w, thr, []⟩ tN
      hsort hlast hall
    rw [runDetector, runDetector_last (t1 :: ts') false ⟨w, thr, []⟩ (by simp),
      hkeep]
    simp only [List.nil_append]
    exact decide_eq_true hcount
  · intro w thr ts t1 tN hsort hhead hlast hspan hcount
    have hne : ts ≠ [] := by
      intro h; rw [h] at hhead; exact absurd hhead (by simp)
    have hrecent := runDetector_recent ts false ⟨w, thr, []⟩ tN hlast
    have hsub := runDetector_sublist ts false ⟨w, thr, []⟩
    simp only [List.nil_append] at hsub
    set S := (List.foldl (fun acc t => detect_burst acc.2 t)
      (false, (⟨w, thr, []⟩ : BurstDetector)) ts).2.packet_times with hS
    have hSfilter : S.filter (fun x => decide (tN - w < x)) = S :=
      List.filter_eq_self.mpr (fun a ha => decide_eq_true (hrecent a ha))
    have hsub2 : List.Sublist (S.filter (fun x => decide (tN - w < x)))
        (ts.filter (fun x => decide (tN - w < x))) :=
      hsub.filter _
    have ht1mem : t1 ∈ ts := List.mem_of_mem_head? (by rw [hhead]; simp)
    have ht1fail : (fun x => decide (tN - w < x)) t1 = false := by
      simp only [decide_eq_false_iff_not, not_lt]
      linarith
    have hlt : (ts.filter (fun x => decide (tN - w < x))).length < ts.length :=
      length_filter_lt_of_mem_not ht1mem ht1fail
    have hSlen : S.length ≤ thr := by
      have h1 : S.length =
          (S.filter (fun x => decide (tN - w < x))).length := by rw [hSfilter]
      have h2 := hsub2.length_le
      omega
    rw [runDetector, runDetector_last ts false ⟨w, thr, []⟩ hne, ← hS]
    have hnot : ¬ (thr < S.length) := by omega
    exact decide_eq_false hnot

/-- Witness for C8: six timestamps one second apart trip the default
detector; six timestamps spread over eleven seconds do not. -/
theorem C8_witness :
    detect_burst ⟨10, 5, [0, 1]⟩ 2 =
      (false, ⟨10, 5, [0, 1, 2]⟩) ∧
    (runDetector ⟨10, 5, []⟩ [0, 1, 2, 3, 4, 5]).1 = true ∧
    (runDetector ⟨10, 5, []⟩ [0, 2, 4, 6, 8, 11]).1 = false := by
  refine ⟨?_, ?_, ?_⟩
  · rw [C8_burst_detector.1 ⟨10, 5, [0, 1]⟩ 2]
    decide
  · exact C8_burst_detector.2.1 10 5 [0, 1, 2, 3, 4, 5] 0 5 (by decide)
      (by decide) (by decide) (by decide) (by decide)
  · exact C8_burst_detector.2.2 10 5 [0, 2, 4, 6, 8, 11] 0 11
      (by decide) (by decide) (by decide) (by decide) (by decide)

end UndercoverNet
